import Mathlib

/-!
# Verification of the dual vector store and multimedia association engine

Shallow embedding of `src/vectorstore.py`, `src/multimedia_manager.py` and
`src/rag_engine.py` (project_chromadb).  External collaborators (the
similarity-search backends, the language model, file I/O) are modelled as
inputs: a backend's raw answer to a given call is passed in as an
`Except String _` value, where `Except.error` stands for a raised exception.
All definitions are computable and mirror the Python control flow.
-/

namespace ProjectChromadb

/-! ## Documents and origin tags (`vectorstore.py`)

A langchain `Document` is modelled by its content together with the
`_debug_origin` metadata key, the only metadata field the dual-store logic
writes.  `origin = none` models a document on which no backend has stamped
an origin tag yet. -/

structure Doc where
  content : String
  origin : Option String
deriving DecidableEq, Repr

/-- The tag `ChromaDBVectorStore.search` stamps on every result
(`vectorstore.py:109`). -/
def chromaTag : String := "📂 ChromaDB (Local)"

/-- The tag `QdrantVectorStoreImp.search` stamps on every result
(`vectorstore.py:195`). -/
def qdrantTag : String := "🚀 Qdrant (Server)"

/-- `for doc in results: doc.metadata["_debug_origin"] = tag`. -/
def stampOrigin (tag : String) (docs : List Doc) : List Doc :=
  docs.map fun d => { d with origin := some tag }

/-- `ChromaDBVectorStore.search` (`vectorstore.py:100-110`): the underlying
`similarity_search` answer is the input `raw`; an exception in it propagates,
a successful answer is returned with every result stamped with the local
origin tag. -/
def chromaSearch (raw : Except String (List Doc)) : Except String (List Doc) :=
  match raw with
  | Except.ok results => Except.ok (stampOrigin chromaTag results)
  | Except.error e => Except.error e

/-- `QdrantVectorStoreImp.search` (`vectorstore.py:189-196`). -/
def qdrantSearch (raw : Except String (List Doc)) : Except String (List Doc) :=
  match raw with
  | Except.ok results => Except.ok (stampOrigin qdrantTag results)
  | Except.error e => Except.error e

/-! ## The dual store coordinator (`DualVectorStore`) -/

/-- The mutable state of a `DualVectorStore` instance that the search / stats
logic consults: the `_qdrant_online` flag (`vectorstore.py:282,285`). -/
structure DualState where
  qdrantOnline : Bool
deriving DecidableEq, Repr

/-- `DualVectorStore.__init__` (`vectorstore.py:275-286`): constructing the
remote adapter may raise (input `qdrantCtor`); on success the flag is set to
`true`, on any exception it is set to `false`. -/
def dualInit (qdrantCtor : Except String Unit) : DualState :=
  match qdrantCtor with
  | Except.ok _ => ⟨true⟩
  | Except.error _ => ⟨false⟩

/-- `DualVectorStore.search` (`vectorstore.py:314-327`).  `qdrantRaw` and
`chromaRaw` are the raw backend answers for this call.  Returns the result
(or the exception that escapes) together with the post-call state.  Note the
`except` branch at lines 321-322 only logs: it does not write
`_qdrant_online`. -/
def dualSearch (st : DualState) (qdrantRaw chromaRaw : Except String (List Doc)) :
    Except String (List Doc) × DualState :=
  if st.qdrantOnline then
    match qdrantSearch qdrantRaw with
    | Except.ok results => (Except.ok results, st)
    | Except.error _ => (chromaSearch chromaRaw, st)
  else
    (chromaSearch chromaRaw, st)

/-! ## Dual stats merge (`DualVectorStore.get_collection_stats`) -/

/-- The fields of a per-backend stats dict that the dual merge reads:
`total_chunks` and `sources` (`vectorstore.py:349-353`). -/
structure RawStats where
  totalChunks : Nat
  sources : List String
deriving DecidableEq, Repr

/-- A per-backend stats dict after the dual layer has added its `status`
key. -/
structure StatusStats where
  status : String
  totalChunks : Nat
  sources : List String
deriving DecidableEq, Repr

/-- The merged stats dict returned by `DualVectorStore.get_collection_stats`
(`vectorstore.py:360-370`); the `details` sub-dict is carried along. -/
structure DualStatsOut where
  totalChunks : Nat
  uniqueSources : Nat
  sources : List String
  backend : String
  detailsChroma : StatusStats
  detailsQdrant : StatusStats
deriving DecidableEq, Repr

/-- Insert a string into a `≤`-sorted list of strings. -/
def insertStr (s : String) : List String → List String
  | [] => [s]
  | t :: ts => if s ≤ t then s :: t :: ts else t :: insertStr s ts

/-- Model of Python `sorted` on a list of strings. -/
def sortStrs : List String → List String
  | [] => []
  | s :: ss => insertStr s (sortStrs ss)

/-- `DualVectorStore.get_collection_stats` (`vectorstore.py:329-370`).
`chromaRes` / `qdrantRes` are the adapters' answers (an `Except.error` models
the adapter call raising).  The qdrant adapter is only consulted when the
online flag is set; `sorted(list(set(c) | set(q)))` is modelled by sorting
the deduplicated concatenation. -/
def dualGetCollectionStats (st : DualState)
    (chromaRes qdrantRes : Except String RawStats) : DualStatsOut :=
  let cs : StatusStats :=
    match chromaRes with
    | Except.ok s => ⟨"online", s.totalChunks, s.sources⟩
    | Except.error _ => ⟨"error", 0, []⟩
  let qs : StatusStats :=
    if st.qdrantOnline then
      match qdrantRes with
      | Except.ok s => ⟨"online", s.totalChunks, s.sources⟩
      | Except.error _ => ⟨"error", 0, []⟩
    else ⟨"offline", 0, []⟩
  let allSources := sortStrs ((cs.sources ++ qs.sources).dedup)
  { totalChunks := max cs.totalChunks qs.totalChunks
    uniqueSources := allSources.length
    sources := allSources
    backend := if qs.status = "online" then "Dual (Híbrido)" else "Dual (Chroma Fallback)"
    detailsChroma := cs
    detailsQdrant := qs }

/-! ### Helper lemmas for the dual store -/

theorem mem_insertStr (s a : String) (l : List String) :
    a ∈ insertStr s l ↔ a = s ∨ a ∈ l := by
  induction l with
  | nil => simp [insertStr]
  | cons t ts ih =>
      by_cases h : s ≤ t
      · simp [insertStr, h]
      · simp [insertStr, h, ih]
        tauto

theorem mem_sortStrs (a : String) (l : List String) :
    a ∈ sortStrs l ↔ a ∈ l := by
  induction l with
  | nil => simp [sortStrs]
  | cons t ts ih => simp [sortStrs, mem_insertStr, ih]

/-! ### Claims about the dual store -/

/-- C1, counterexample.  The claim says that after any `search` call
during which the remote adapter raised, the coordinator has marked Remote
offline and no later search attempts Remote.  In the code the `except`
branch of `DualVectorStore.search` only logs: starting from the
online state, a search in which Qdrant raises leaves `_qdrant_online`
unchanged (`true`), and the very next search attempts Qdrant again and
returns its (qdrant-tagged) results. -/
theorem c1_search_exception_does_not_mark_offline :
    (dualSearch ⟨true⟩ (Except.error "connection refused") (Except.ok [])).2
      = ⟨true⟩ ∧
    (dualSearch
        (dualSearch ⟨true⟩ (Except.error "connection refused") (Except.ok [])).2
        (Except.ok [⟨"chunk", none⟩]) (Except.ok [])).1
      = Except.ok [⟨"chunk", some qdrantTag⟩] := by
  constructor <;> rfl

/-- C1, amended.  The remote leg's one-way state machine transitions
`Online → Offline` only at construction time (the flag is `false` exactly
when constructing the remote adapter raised); a `search` call never changes
the flag — so there is no `Offline → Online` transition, but also a
search-time remote exception does *not* transition to Offline, and after a
search in which the remote adapter raised, the next search still attempts
Remote. -/
theorem c1_one_way_state_machine :
    (∀ (st : DualState) (qdrantRaw chromaRaw : Except String (List Doc)),
        (dualSearch st qdrantRaw chromaRaw).2 = st) ∧
    (∀ e : String, dualInit (Except.error e) = ⟨false⟩) ∧
    (dualInit (Except.ok ()) = ⟨true⟩) ∧
    (∀ (e : String) (chromaRaw chromaRaw' : Except String (List Doc))
        (docs : List Doc),
        (dualSearch (dualSearch ⟨true⟩ (Except.error e) chromaRaw).2
            (Except.ok docs) chromaRaw').1
          = Except.ok (stampOrigin qdrantTag docs)) := by
  refine ⟨?_, ?_, rfl, ?_⟩
  · intro st qdrantRaw chromaRaw
    unfold dualSearch
    by_cases h : st.qdrantOnline <;>
      · simp only [dualSearch, h, if_true, if_false]
        cases qdrantSearch qdrantRaw <;> rfl
  · intro e; rfl
  · intro e chromaRaw chromaRaw' docs
    rfl

/-- **C2.**  For every search call in which the remote adapter raises
(remote marked online, `qdrantRaw` an exception) and the local adapter's own
search succeeds (`chromaRaw = ok docs`), the dual search returns exactly the
local adapter's results, each stamped with the local origin tag, as a
non-exceptional value — local's answer verbatim, no merging with remote
results, no exception to the caller. -/
theorem c2_fallback_on_remote_exception
    (e : String) (docs : List Doc) :
    dualSearch ⟨true⟩ (Except.error e) (Except.ok docs)
      = (Except.ok (docs.map fun d => { d with origin := some chromaTag }),
         ⟨true⟩) := by
  rfl

/-- C2, witness. -/
theorem c2_fallback_on_remote_exception_witness :
    dualSearch ⟨true⟩ (Except.error "timeout")
        (Except.ok [⟨"local chunk", none⟩])
      = (Except.ok [⟨"local chunk", some chromaTag⟩], ⟨true⟩) :=
  c2_fallback_on_remote_exception "timeout" [⟨"local chunk", none⟩]

/-- **C3.**  For every pair of per-backend stats results (`c` from Local,
`q` from Remote), the merged stats report: sources equal (as a set) to the
union of the two backends' source sets (Remote's set taken empty when the
flag is offline, as the adapter is then not consulted), `total_chunks` the
maximum — hence Local's count when Remote is offline and contributes `0` —
and the backend-name flag `"Dual (Híbrido)"` (the spec's `Dual (Hybrid)`)
exactly when Remote's status is online at the time of the call, otherwise
`"Dual (Chroma Fallback)"`. -/
theorem c3_stats_merge (st : DualState) (c q : RawStats) :
    (∀ s : String,
        s ∈ (dualGetCollectionStats st (Except.ok c) (Except.ok q)).sources
          ↔ s ∈ c.sources ∨ (st.qdrantOnline = true ∧ s ∈ q.sources)) ∧
    (dualGetCollectionStats st (Except.ok c) (Except.ok q)).totalChunks
      = max c.totalChunks (if st.qdrantOnline then q.totalChunks else 0) ∧
    (dualGetCollectionStats st (Except.ok c) (Except.ok q)).backend
      = (if st.qdrantOnline then "Dual (Híbrido)" else "Dual (Chroma Fallback)") := by
  by_cases h : st.qdrantOnline
  · refine ⟨?_, ?_, ?_⟩
    · intro s
      simp [dualGetCollectionStats, h, mem_sortStrs, List.mem_dedup]
    · simp [dualGetCollectionStats, h]
    · simp [dualGetCollectionStats, h]
  · refine ⟨?_, ?_, ?_⟩
    · intro s
      simp [dualGetCollectionStats, h, mem_sortStrs, List.mem_dedup]
    · simp [dualGetCollectionStats, h]
    · simp [dualGetCollectionStats, h]

/-! ## Multimedia manager (`multimedia_manager.py`)

`MediaItem` and `MediaAssociation` mirror the two dataclasses; the Python
`section` field is named `sectionName` here because `section` is reserved in
Lean. -/

structure MediaItem where
  type : String
  url : String
  title : Option String
  description : Option String
  thumbnail_url : Option String
  duration : Option Nat
deriving DecidableEq, Repr

structure MediaAssociation where
  document_name : String
  page_number : Option Int
  sectionName : Option String
  keywords : List String
  media_items : List MediaItem
deriving DecidableEq, Repr

/-! String primitives.  The Lean core `String` functions (`split`,
`toLower`, `trim`) are implemented on byte positions and do not reduce in
the kernel, so the Python string operations are modelled directly on the
character list. -/

/-- Maximal runs of characters not satisfying `p` (runs accumulate in
`cur`, reversed).  `tokensAux p s.toList []` models Python
`s.split()`-style tokenization with separator predicate `p`, empty tokens
dropped. -/
def tokensAux (p : Char → Bool) : List Char → List Char → List String
  | [], cur => if cur.isEmpty then [] else [String.mk cur.reverse]
  | c :: cs, cur =>
      if p c then
        (if cur.isEmpty then tokensAux p cs []
         else String.mk cur.reverse :: tokensAux p cs [])
      else tokensAux p cs (c :: cur)

/-- Model of Python `str.lower` (ASCII case folding, which covers every
string this code base compares). -/
def pyLower (s : String) : String := String.mk (s.toList.map Char.toLower)

/-- Model of Python `str.strip()`: drop leading and trailing whitespace. -/
def pyStrip (s : String) : String :=
  String.mk (((s.toList.dropWhile Char.isWhitespace).reverse.dropWhile
    Char.isWhitespace).reverse)

/-- Model of Python `pathlib.Path(s).name` (POSIX): the last `/`-separated
component, empty and `"."` components dropped, `""` when none remain. -/
def baseName (s : String) : String :=
  (((tokensAux (fun c => c = '/') s.toList []).filter
    (fun comp => comp ≠ ".")).getLast?).getD ""

/-- The page-matching rule of `find_media_by_document`
(`multimedia_manager.py:174-180`): no queried page matches everything, a
pageless association is document-wide media, otherwise integer equality. -/
def pageMatches (assocPage queryPage : Option Int) : Bool :=
  match queryPage with
  | none => true
  | some qp =>
      match assocPage with
      | none => true
      | some ap => ap = qp

/-- `MultimediaManager.find_media_by_document`
(`multimedia_manager.py:154-185`): base-name-normalizes both names, then
extends the result list with the media of every association matching name
and page, in stored order. -/
def find_media_by_document (assocs : List MediaAssociation)
    (document_name : String) (page_number : Option Int) : List MediaItem :=
  match assocs with
  | [] => []
  | a :: rest =>
      (if baseName a.document_name = baseName document_name
          && pageMatches a.page_number page_number
       then a.media_items else [])
      ++ find_media_by_document rest document_name page_number

/-! ### Keyword scoring (`find_media_by_keywords`) -/

/-- Python substring containment `needle in hay` on the character list of
`hay`. -/
def infixOfChars (needle : List Char) : List Char → Bool
  | [] => needle.isEmpty
  | c :: rest => needle.isPrefixOf (c :: rest) || infixOfChars needle rest

/-- Python `needle in hay` on strings. -/
def substrOf (needle hay : String) : Bool :=
  infixOfChars needle.toList hay.toList

/-- Python `s.split()`: whitespace-delimited tokens, empties dropped. -/
def pyWords (s : String) : List String :=
  tokensAux Char.isWhitespace s.toList []

/-- `len(set(a.split()) & set(b.split()))` for already-lowered strings:
the number of distinct words shared by `a` and `b`. -/
def sharedWordCount (a : String) (bWords : List String) : Nat :=
  ((pyWords a).dedup.filter (fun w => decide (w ∈ bWords))).length

/-- Score contributed by the `section` check
(`multimedia_manager.py:211-212`): Python tests `assoc.section and
assoc.section.lower() in query_lower`, so a missing *or empty* section gets
no bonus. -/
def sectionBonus (query_lower : String) (sect : Option String) : Nat :=
  match sect with
  | some s => if s ≠ "" && substrOf (pyLower s) query_lower then 10 else 0
  | none => 0

/-- Score contributed by one keyword (`multimedia_manager.py:215-223`):
`+5` when the lowered keyword is a substring of the lowered query, plus
`2` per distinct word shared with the query's word set. -/
def keywordScore (query_lower : String) (query_words : List String)
    (kw : String) : Nat :=
  (if substrOf (pyLower kw) query_lower then 5 else 0)
    + 2 * sharedWordCount (pyLower kw) query_words

/-- The total score of one association for a query
(`multimedia_manager.py:208-223`). -/
def assocScore (query : String) (a : MediaAssociation) : Nat :=
  let ql := pyLower query
  let qw := pyWords ql
  a.keywords.foldl (fun acc kw => acc + keywordScore ql qw kw)
    (sectionBonus ql a.sectionName)

/-- One entry of the list `find_media_by_keywords` returns. -/
structure ScoredResult where
  association : MediaAssociation
  score : Nat
  media_items : List MediaItem
deriving DecidableEq, Repr

/-- Insert into a score-descending list, after every earlier element of
`≥` score: the stable insertion step. -/
def insertDesc (x : ScoredResult) : List ScoredResult → List ScoredResult
  | [] => [x]
  | y :: ys => if x.score < y.score then y :: insertDesc x ys else x :: y :: ys

/-- Model of Python `list.sort(key=score, reverse=True)`: a stable
descending sort. -/
def stableSortDesc : List ScoredResult → List ScoredResult
  | [] => []
  | x :: xs => insertDesc x (stableSortDesc xs)

/-- `MultimediaManager.find_media_by_keywords`
(`multimedia_manager.py:187-235`): score every association, keep the ones
with positive score, sort stably by descending score, truncate to
`top_k`. -/
def find_media_by_keywords (assocs : List MediaAssociation)
    (query : String) (top_k : Nat) : List ScoredResult :=
  (stableSortDesc (assocs.filterMap (fun a =>
    let s := assocScore query a
    if s > 0 then some ⟨a, s, a.media_items⟩ else none))).take top_k

/-! ### Removal (`remove_association`) -/

/-- `MultimediaManager.remove_association`
(`multimedia_manager.py:330-352`): keeps every association *not* matching
`document_name == document` (raw equality, no base-name normalization) and
the optional section filter; returns the new list and the removed count. -/
def remove_association (assocs : List MediaAssociation)
    (document_name : String) (sect : Option String) :
    List MediaAssociation × Nat :=
  let after := assocs.filter (fun a =>
    decide (¬(a.document_name = document_name ∧
        (sect = none ∨ a.sectionName = sect))))
  (after, assocs.length - after.length)

/-! ### Dedup-by-key folds

The pattern `seen = set(); for item in items: if key(item) not in seen:
out.append(item); seen.add(key(item))` occurs in `find_media_for_source`
(key `(type, url)`), in the aggregate step of `RAGEngine.query` (key `url`,
with a URL-validity guard) and in its keyword fallback. -/

def seenFold {κ : Type} [DecidableEq κ] (key : MediaItem → κ)
    (validKey : κ → Bool) :
    List MediaItem → List MediaItem × List κ → List MediaItem × List κ
  | [], acc => acc
  | item :: rest, (all, seen) =>
      if validKey (key item) && !(decide (key item ∈ seen)) then
        seenFold key validKey rest (all ++ [item], seen ++ [key item])
      else
        seenFold key validKey rest (all, seen)

/-- The `(type, url)` dedup at the end of `find_media_for_source`
(`multimedia_manager.py:267-276`); every item is valid there. -/
def dedupByTypeUrl (items : List MediaItem) : List MediaItem :=
  (seenFold (fun m => (m.type, m.url)) (fun _ => true) items ([], [])).1

/-- `MultimediaManager.find_media_for_source`
(`multimedia_manager.py:237-276`): direct document/page lookup; when a
non-empty query is given and the direct lookup is empty, backfill from
`find_media_by_keywords(query, top_k=3)` restricted to associations whose
stored `document_name` equals `source` exactly; finally dedup by
`(type, url)`. -/
def find_media_for_source (assocs : List MediaAssociation) (source : String)
    (page : Option Int) (query : Option String) : List MediaItem :=
  let media1 := find_media_by_document assocs source page
  let media2 :=
    match query with
    | some q =>
        if q ≠ "" && media1.isEmpty then
          media1 ++ (((find_media_by_keywords assocs q 3).filter
              (fun r => decide (r.association.document_name = source))).map
              (fun r => r.media_items)).flatten
        else media1
    | none => media1
  dedupByTypeUrl media2

/-- One source record of `RAGEngine._format_sources` output, restricted to
the fields the enrichment reads/writes; `media = []` models the `media` key
being absent. -/
structure SourceRec where
  source : String
  page : Option Int
  media : List MediaItem
deriving DecidableEq, Repr

/-- `MultimediaManager.enrich_sources_with_media`
(`multimedia_manager.py:278-313`): per record, look up media for its
`(source, page)` (plus the query-based backfill inside
`find_media_for_source`); the `media` key is only written when the lookup
is non-empty. -/
def enrich_sources_with_media (assocs : List MediaAssociation)
    (sources : List SourceRec) (query : Option String) : List SourceRec :=
  sources.map fun s =>
    let items := find_media_for_source assocs s.source s.page query
    if items.isEmpty then s else { s with media := items }

/-! ### Answer-level media aggregation (`rag_engine.py`) -/

/-- The URL-validity guard of the aggregate step
(`rag_engine.py:122`): `url and isinstance(url, str) and
len(url.strip()) > 1`. -/
def validUrl (u : String) : Bool := decide ((pyStrip u).length > 1)

/-- The laxer guard of the keyword fallback (`rag_engine.py:134`):
`url and len(str(url)) > 1`. -/
def validUrlLoose (u : String) : Bool := decide (u.length > 1)

/-- Step 2 of `RAGEngine.query` (`rag_engine.py:99-125`): walk every
enriched record's media list, keeping the first item per URL and dropping
items whose URL fails the validity guard.  Returns `(all_media,
seen_urls)`. -/
def aggregateMedia (chunkMedia : List (List MediaItem)) :
    List MediaItem × List String :=
  chunkMedia.foldl (fun acc ms => seenFold (fun m => m.url) validUrl ms acc)
    ([], [])

/-- Steps 2-3 of `RAGEngine.query` (`rag_engine.py:99-138`): the flat
`result["media"]` list.  The keyword fallback
`find_media_by_keywords(question, top_k=2)` runs only when the aggregate is
empty, continuing with the same `seen_urls` set. -/
def ragQueryMedia (assocs : List MediaAssociation)
    (chunkMedia : List (List MediaItem)) (question : String) :
    List MediaItem :=
  let agg := aggregateMedia chunkMedia
  if agg.1.isEmpty then
    ((find_media_by_keywords assocs question 2).foldl
      (fun acc r => seenFold (fun m => m.url) validUrlLoose r.media_items acc)
      agg).1
  else agg.1

/-- The media extraction of `RAGEngine.chat_query`
(`rag_engine.py:357-361`): plain concatenation of the records' media lists,
no dedup. -/
def chatQueryMedia (sources : List SourceRec) : List MediaItem :=
  sources.foldl (fun acc s => acc ++ s.media) []

/-! ### Config loading (`MultimediaManager._load_config`) -/

/-- The outcome of reading and JSON-decoding the persisted association
file, as seen by `_load_config` (`multimedia_manager.py:63-82`):
the file may be absent, `json.load` may raise (`badJson`), or it yields a
list of association entries each of which parses to a `MediaAssociation`
or raises (`Except.error`) inside `MediaItem(**item)` /
`MediaAssociation(**assoc_data)`. -/
inductive LoadInput where
  | missing : LoadInput
  | badJson (err : String) : LoadInput
  | entries (es : List (Except String MediaAssociation)) : LoadInput
deriving Repr

/-- The associations appended before the first failing entry: the loop
appends as it goes and the `except` at `multimedia_manager.py:81` catches
outside the loop, so a mid-list failure keeps the prefix. -/
def takeOkPrefix : List (Except String MediaAssociation) →
    List MediaAssociation
  | [] => []
  | Except.ok a :: rest => a :: takeOkPrefix rest
  | Except.error _ :: _ => []

/-- `MultimediaManager._load_config` (`multimedia_manager.py:63-82`),
starting from the empty association list set up by `__init__`.  Total:
every exception is caught. -/
def loadAssociations : LoadInput → List MediaAssociation
  | LoadInput.missing => []
  | LoadInput.badJson _ => []
  | LoadInput.entries es => takeOkPrefix es

/-- Whether an exception was raised at some point while loading the file
(the file's content is malformed somewhere). -/
def loadFails : LoadInput → Bool
  | LoadInput.missing => false
  | LoadInput.badJson _ => true
  | LoadInput.entries es =>
      es.any (fun e => match e with
        | Except.error _ => true
        | Except.ok _ => false)

/-! ## Helper lemmas -/

theorem length_filter_not_add {α : Type} (p : α → Bool) (l : List α) :
    (l.filter (fun a => !(p a))).length + (l.filter p).length = l.length := by
  induction l with
  | nil => rfl
  | cons a l ih =>
      by_cases h : p a = true <;> simp [List.filter_cons, h, ← ih] <;> omega

theorem find_media_by_document_eq (assocs : List MediaAssociation)
    (doc : String) (page : Option Int) :
    find_media_by_document assocs doc page
      = ((assocs.filter (fun a =>
          decide (baseName a.document_name = baseName doc)
            && pageMatches a.page_number page)).map
          (fun a => a.media_items)).flatten := by
  induction assocs with
  | nil => rfl
  | cons a rest ih =>
      by_cases h : (decide (baseName a.document_name = baseName doc)
          && pageMatches a.page_number page) = true
      · simp only [find_media_by_document, List.filter_cons, h, if_true,
          List.map_cons, List.flatten_cons, ih]
      · simp only [find_media_by_document, List.filter_cons, h,
          Bool.false_eq_true, if_false, List.nil_append, ih]

/-! ## Claims about the multimedia association index -/

/-- **C4.**  `find_media_by_document` behaves exactly as the claim states:
both the queried name and each stored name are base-name-normalized before
comparison; a query without a page matches every association of the
document, a pageless association matches any queried page, and two present
pages must be integer-equal; the result is the concatenated `media_items`
of every matching association, in stored order. -/
theorem c4_find_by_document (assocs : List MediaAssociation)
    (doc : String) (page : Option Int) :
    find_media_by_document assocs doc page =
      ((assocs.filter (fun a =>
          decide (baseName a.document_name = baseName doc) &&
            (match page, a.page_number with
             | none, _ => true
             | some _, none => true
             | some qp, some ap => decide (ap = qp)))).map
        (fun a => a.media_items)).flatten := by
  have hpm : ∀ ap : Option Int, (match page, ap with
      | none, _ => true
      | some _, none => true
      | some qp, some ap => decide (ap = qp))
      = pageMatches ap page := by
    intro ap; cases page <;> cases ap <;> rfl
  simp only [hpm]
  exact find_media_by_document_eq assocs doc page

/-! ### Claim-side scoring definitions (for C5)

These follow the *claim's wording* of `find_media_by_keywords`, to be
compared with the embedding above. -/

/-- The claim's per-association score, original (unamended) wording: `+10`
if the association's section text is a substring of the query — the empty
string being a substring of every query — plus, per keyword, `+5` when the
keyword is a substring of the query plus `2` per distinct word shared with
the query's word set; all case-insensitively. -/
def claimScoreOriginal (query : String) (a : MediaAssociation) : Nat :=
  let ql := pyLower query
  let qw := pyWords ql
  (match a.sectionName with
   | some s => if substrOf (pyLower s) ql then 10 else 0
   | none => 0)
  + (a.keywords.map (fun kw =>
      (if substrOf (pyLower kw) ql then 5 else 0)
        + 2 * ((pyWords (pyLower kw)).dedup.filter
            (fun w => decide (w ∈ qw))).length)).sum

/-- As `claimScoreOriginal`, but with the section bonus amended to require
a *nonempty* section, which is what the Python truthiness test
`assoc.section and ...` checks. -/
def claimScoreAmended (query : String) (a : MediaAssociation) : Nat :=
  let ql := pyLower query
  let qw := pyWords ql
  (match a.sectionName with
   | some s => if s ≠ "" && substrOf (pyLower s) ql then 10 else 0
   | none => 0)
  + (a.keywords.map (fun kw =>
      (if substrOf (pyLower kw) ql then 5 else 0)
        + 2 * ((pyWords (pyLower kw)).dedup.filter
            (fun w => decide (w ∈ qw))).length)).sum

/-- The claim's pipeline over its original score: keep positive scores,
stable descending sort, truncate to `top_k`. -/
def claimFindByKeywordsOriginal (assocs : List MediaAssociation)
    (query : String) (top_k : Nat) : List ScoredResult :=
  (stableSortDesc (assocs.filterMap (fun a =>
    let s := claimScoreOriginal query a
    if s > 0 then some ⟨a, s, a.media_items⟩ else none))).take top_k

/-- The claim's pipeline over the amended score. -/
def claimFindByKeywordsAmended (assocs : List MediaAssociation)
    (query : String) (top_k : Nat) : List ScoredResult :=
  (stableSortDesc (assocs.filterMap (fun a =>
    let s := claimScoreAmended query a
    if s > 0 then some ⟨a, s, a.media_items⟩ else none))).take top_k

/-! ### Sorting lemmas for C5 -/

theorem foldl_add_map_sum {α : Type} (f : α → Nat) (l : List α) (init : Nat) :
    l.foldl (fun acc x => acc + f x) init = init + (l.map f).sum := by
  induction l generalizing init with
  | nil => simp
  | cons x xs ih => simp [List.foldl_cons, ih]; omega

theorem mem_insertDesc (x z : ScoredResult) (l : List ScoredResult) :
    z ∈ insertDesc x l ↔ z = x ∨ z ∈ l := by
  induction l with
  | nil => simp [insertDesc]
  | cons y ys ih =>
      by_cases h : x.score < y.score
      · simp [insertDesc, h, ih]; tauto
      · simp [insertDesc, h]

theorem perm_insertDesc (x : ScoredResult) (l : List ScoredResult) :
    (insertDesc x l).Perm (x :: l) := by
  induction l with
  | nil => simp [insertDesc]
  | cons y ys ih =>
      by_cases h : x.score < y.score
      · simp only [insertDesc, h, if_true]
        exact ((ih.cons y).trans (List.Perm.swap x y ys))
      · simp [insertDesc, h]

theorem perm_stableSortDesc (l : List ScoredResult) :
    (stableSortDesc l).Perm l := by
  induction l with
  | nil => simp [stableSortDesc]
  | cons x xs ih =>
      exact (perm_insertDesc x (stableSortDesc xs)).trans (ih.cons x)

theorem pairwise_insertDesc (x : ScoredResult) (l : List ScoredResult)
    (hl : l.Pairwise (fun a b => b.score ≤ a.score)) :
    (insertDesc x l).Pairwise (fun a b => b.score ≤ a.score) := by
  induction l with
  | nil => simp [insertDesc]
  | cons y ys ih =>
      rcases List.pairwise_cons.mp hl with ⟨hy, hys⟩
      by_cases h : x.score < y.score
      · simp only [insertDesc, h, if_true]
        refine List.pairwise_cons.mpr ⟨?_, ih hys⟩
        intro z hz
        rcases (mem_insertDesc x z ys).mp hz with rfl | hzys
        · exact Nat.le_of_lt h
        · exact hy z hzys
      · simp only [insertDesc, h, if_false]
        refine List.pairwise_cons.mpr ⟨?_, hl⟩
        intro z hz
        rcases List.mem_cons.mp hz with rfl | hzys
        · exact Nat.le_of_not_lt h
        · exact Nat.le_trans (hy z hzys) (Nat.le_of_not_lt h)

theorem pairwise_stableSortDesc (l : List ScoredResult) :
    (stableSortDesc l).Pairwise (fun a b => b.score ≤ a.score) := by
  induction l with
  | nil => simp [stableSortDesc]
  | cons x xs ih => exact pairwise_insertDesc x (stableSortDesc xs) ih

theorem filter_insertDesc (v : Nat) (x : ScoredResult) (l : List ScoredResult) :
    (insertDesc x l).filter (fun r => decide (r.score = v))
      = if x.score = v
        then x :: l.filter (fun r => decide (r.score = v))
        else l.filter (fun r => decide (r.score = v)) := by
  induction l with
  | nil => simp [insertDesc, List.filter_cons]
  | cons y ys ih =>
      by_cases h : x.score < y.score
      · have hyv : x.score = v → ¬(y.score = v) := by omega
        simp only [insertDesc, h, if_true, List.filter_cons, ih]
        by_cases hx : x.score = v
        · simp [hx, hyv hx]
        · simp [hx]
      · simp [insertDesc, h, List.filter_cons]

theorem filter_stableSortDesc (l : List ScoredResult) (v : Nat) :
    (stableSortDesc l).filter (fun r => decide (r.score = v))
      = l.filter (fun r => decide (r.score = v)) := by
  induction l with
  | nil => rfl
  | cons x xs ih =>
      simp only [stableSortDesc, filter_insertDesc, List.filter_cons, ih]
      by_cases hx : x.score = v
      · simp [hx]
      · simp [hx]

theorem assocScore_eq_claimAmended (query : String) (a : MediaAssociation) :
    assocScore query a = claimScoreAmended query a := by
  unfold assocScore claimScoreAmended
  rw [foldl_add_map_sum]
  rfl

/-- C5, counterexample.  The claim's scoring gives `+10` whenever the
section text is a substring of the query, and the empty string is a
substring of every query; the code's truthiness test `assoc.section and
...` gives an *empty* section no bonus.  For an association whose section
is `""` and that has no keywords, the claim's pipeline returns it with
score 10 while the code excludes it (score 0). -/
theorem c5_empty_section_scores_zero :
    find_media_by_keywords
        [⟨"d.pdf", none, some "", [],
          [⟨"image", "u", none, none, none, none⟩]⟩] "x" 5
      = [] ∧
    claimFindByKeywordsOriginal
        [⟨"d.pdf", none, some "", [],
          [⟨"image", "u", none, none, none, none⟩]⟩] "x" 5
      = [⟨⟨"d.pdf", none, some "", [],
            [⟨"image", "u", none, none, none, none⟩]⟩, 10,
          [⟨"image", "u", none, none, none, none⟩]⟩] := by
  constructor <;> rfl

/-- C5, amended.  `find_media_by_keywords` realises exactly the claim's
case-insensitive scoring pipeline with the section bonus amended to require
a present *and nonempty* section: score = (10 if the nonempty section is a
substring of the query) + per keyword (5 if a substring of the query, plus
2 per distinct shared word); zero-scored associations are excluded; and the
sort used is a genuine stable descending sort: it permutes its input, its
output is pairwise descending in score, and elements of equal score keep
their relative (insertion) order, then the result is truncated to
`top_k`. -/
theorem c5_keyword_search_amended :
    (∀ (assocs : List MediaAssociation) (query : String) (top_k : Nat),
        find_media_by_keywords assocs query top_k
          = claimFindByKeywordsAmended assocs query top_k) ∧
    (∀ l : List ScoredResult, (stableSortDesc l).Perm l) ∧
    (∀ l : List ScoredResult,
        (stableSortDesc l).Pairwise (fun a b => b.score ≤ a.score)) ∧
    (∀ (l : List ScoredResult) (v : Nat),
        (stableSortDesc l).filter (fun r => decide (r.score = v))
          = l.filter (fun r => decide (r.score = v))) := by
  refine ⟨?_, perm_stableSortDesc, pairwise_stableSortDesc,
    filter_stableSortDesc⟩
  intro assocs query top_k
  unfold find_media_by_keywords claimFindByKeywordsAmended
  simp only [assocScore_eq_claimAmended]

/-- C8, counterexample.  The claim says `remove` removes exactly the
associations `find_by_document` matches, so an association stored under a
path-prefixed name would be removed by the bare base name.  In the code
`remove_association` compares `document_name` by raw equality: the stored
name `"data/pdfs/manual.pdf"` is matched by
`find_media_by_document "manual.pdf"` but `remove_association` with
`"manual.pdf"` removes nothing (count 0, list unchanged). -/
theorem c8_remove_is_not_basename_normalized :
    find_media_by_document
        [⟨"data/pdfs/manual.pdf", none, none, [],
          [⟨"image", "u1", none, none, none, none⟩]⟩]
        "manual.pdf" none
      = [⟨"image", "u1", none, none, none, none⟩] ∧
    remove_association
        [⟨"data/pdfs/manual.pdf", none, none, [],
          [⟨"image", "u1", none, none, none, none⟩]⟩]
        "manual.pdf" none
      = ([⟨"data/pdfs/manual.pdf", none, none, [],
          [⟨"image", "u1", none, none, none, none⟩]⟩], 0) := by
  constructor <;> rfl

/-- C8, amended.  `remove(document, section?)` matches by *raw*
`document_name` equality (no base-name normalization, unlike
`find_media_by_document`): it removes exactly the associations with
`document_name == document` and (section argument absent, or equal to the
stored section), and returns their count. -/
theorem c8_remove_exact_equality (assocs : List MediaAssociation)
    (doc : String) (sect : Option String) :
    (remove_association assocs doc sect).1
      = assocs.filter (fun a =>
          decide (¬(a.document_name = doc ∧
            (sect = none ∨ a.sectionName = sect)))) ∧
    (remove_association assocs doc sect).2
      = (assocs.filter (fun a =>
          decide (a.document_name = doc ∧
            (sect = none ∨ a.sectionName = sect)))).length := by
  refine ⟨rfl, ?_⟩
  show assocs.length
      - (assocs.filter (fun a =>
          decide (¬(a.document_name = doc ∧
            (sect = none ∨ a.sectionName = sect))))).length
    = _
  have h := length_filter_not_add
    (fun a => decide (a.document_name = doc ∧
      (sect = none ∨ a.sectionName = sect))) assocs
  simp only [decide_not] at *
  omega

/-! ### Invariants of the dedup-by-key folds (for C6, C7, C9) -/

theorem seenFold_spec {κ : Type} [DecidableEq κ] (key : MediaItem → κ)
    (validKey : κ → Bool) (items : List MediaItem) :
    ∀ (all : List MediaItem) (seen : List κ),
      (∀ k : κ, k ∈ seen ↔ k ∈ all.map key) →
      ((∀ k : κ, k ∈ (seenFold key validKey items (all, seen)).2
          ↔ k ∈ (seenFold key validKey items (all, seen)).1.map key) ∧
       ((all.map key).Nodup →
          ((seenFold key validKey items (all, seen)).1.map key).Nodup) ∧
       (∀ k : κ,
          (seenFold key validKey items (all, seen)).1.filter
              (fun m => decide (key m = k))
            = all.filter (fun m => decide (key m = k))
              ++ (if validKey k = true ∧ k ∉ seen
                  then (items.filter (fun m => decide (key m = k))).take 1
                  else []))) := by
  induction items with
  | nil =>
      intro all seen hseen
      exact ⟨fun k => hseen k, fun h => h, fun k => by simp [seenFold]⟩
  | cons item rest ih =>
      intro all seen hseen
      by_cases hc : (validKey (key item) && !(decide (key item ∈ seen))) = true
      · have hval : validKey (key item) = true := by
          simpa using (Bool.and_eq_true _ _ |>.mp hc).1
        have hnotin : key item ∉ seen := by
          have := (Bool.and_eq_true _ _ |>.mp hc).2
          simpa using this
        have hseen' : ∀ k : κ, k ∈ seen ++ [key item]
            ↔ k ∈ (all ++ [item]).map key := by
          intro k
          simp only [List.mem_append, List.map_append, List.mem_singleton,
            List.map_cons, List.map_nil, List.mem_cons, List.not_mem_nil,
            or_false]
          rw [hseen k]
        have hrec := ih (all ++ [item]) (seen ++ [key item]) hseen'
        have hstep : seenFold key validKey (item :: rest) (all, seen)
            = seenFold key validKey rest (all ++ [item], seen ++ [key item]) := by
          simp only [seenFold, hc, if_true]
        refine ⟨?_, ?_, ?_⟩
        · rw [hstep]; exact hrec.1
        · rw [hstep]
          intro hnodup
          refine hrec.2.1 ?_
          have hkey_notin : key item ∉ all.map key := by
            intro hmem; exact hnotin ((hseen (key item)).mpr hmem)
          simp [List.nodup_append, hnodup, hkey_notin]
        · intro k
          rw [hstep, hrec.2.2 k]
          by_cases hk : k = key item
          · subst hk
            have h1 : (all ++ [item]).filter (fun m => decide (key m = key item))
                = all.filter (fun m => decide (key m = key item)) ++ [item] := by
              simp [List.filter_append]
            have hcond' : ¬(validKey (key item) = true
                ∧ key item ∉ seen ++ [key item]) := by
              simp
            rw [h1, if_neg hcond', if_pos ⟨hval, hnotin⟩]
            simp [List.filter_cons]
          · have hki : ¬ (key item = k) := fun h => hk h.symm
            have h2 : (all ++ [item]).filter (fun m => decide (key m = k))
                = all.filter (fun m => decide (key m = k)) := by
              simp [List.filter_append, hki]
            have h3 : (item :: rest).filter (fun m => decide (key m = k))
                = rest.filter (fun m => decide (key m = k)) := by
              simp [List.filter_cons, hki]
            have h4 : (k ∈ seen ++ [key item]) ↔ k ∈ seen := by
              simp [List.mem_append, hk]
            rw [h2, h3]
            by_cases h5 : validKey k = true ∧ k ∉ seen
            · rw [if_pos h5, if_pos ⟨h5.1, fun hm => h5.2 (h4.mp hm)⟩]
            · rw [if_neg h5, if_neg (fun hcon =>
                h5 ⟨hcon.1, fun hm => hcon.2 (List.mem_append_left _ hm)⟩)]
      · have hstep : seenFold key validKey (item :: rest) (all, seen)
            = seenFold key validKey rest (all, seen) := by
          simp only [seenFold]
          rw [if_neg hc]
        have hrec := ih all seen hseen
        refine ⟨?_, ?_, ?_⟩
        · rw [hstep]; exact hrec.1
        · rw [hstep]; exact hrec.2.1
        · intro k
          rw [hstep, hrec.2.2 k]
          by_cases hk : k = key item
          · subst hk
            have hcond : ¬(validKey (key item) = true ∧ key item ∉ seen) := by
              intro h
              exact hc (by simp [h.1, h.2])
            rw [if_neg hcond, if_neg hcond]
          · have hki : ¬ (key item = k) := fun h => hk h.symm
            have h3 : (item :: rest).filter (fun m => decide (key m = k))
                = rest.filter (fun m => decide (key m = k)) := by
              simp [List.filter_cons, hki]
            rw [h3]

theorem seenFold_append {κ : Type} [DecidableEq κ] (key : MediaItem → κ)
    (validKey : κ → Bool) (xs ys : List MediaItem) :
    ∀ acc : List MediaItem × List κ,
      seenFold key validKey (xs ++ ys) acc
        = seenFold key validKey ys (seenFold key validKey xs acc) := by
  induction xs with
  | nil => intro acc; rfl
  | cons x xs ih =>
      intro acc
      obtain ⟨all, seen⟩ := acc
      by_cases hc : (validKey (key x) && !(decide (key x ∈ seen))) = true
      · simp only [List.cons_append, seenFold, hc, if_true, List.append_eq, ih]
      · simp only [List.cons_append, seenFold, List.append_eq]
        rw [if_neg hc, if_neg hc, ih]

theorem foldl_seenFold {κ : Type} [DecidableEq κ] {β : Type}
    (key : MediaItem → κ) (validKey : κ → Bool) (g : β → List MediaItem)
    (L : List β) :
    ∀ acc : List MediaItem × List κ,
      L.foldl (fun acc b => seenFold key validKey (g b) acc) acc
        = seenFold key validKey ((L.map g).flatten) acc := by
  induction L with
  | nil => intro acc; rfl
  | cons b L ih =>
      intro acc
      simp only [List.foldl_cons, List.map_cons, List.flatten_cons, ih,
        seenFold_append]

theorem aggregateMedia_eq (cm : List (List MediaItem)) :
    aggregateMedia cm
      = seenFold (fun m => m.url) validUrl cm.flatten ([], []) := by
  have h := foldl_seenFold (fun m => m.url) validUrl
    (fun ms : List MediaItem => ms) cm ([], [])
  simpa [aggregateMedia, List.map_id] using h

theorem aggregateMedia_filter (cm : List (List MediaItem)) (u : String) :
    (aggregateMedia cm).1.filter (fun m => decide (m.url = u))
      = if validUrl u
        then (cm.flatten.filter (fun m => decide (m.url = u))).take 1
        else [] := by
  rw [aggregateMedia_eq]
  have hs := seenFold_spec (fun m => m.url) validUrl cm.flatten [] []
    (by intro k; simp)
  rw [hs.2.2 u]
  by_cases hv : validUrl u = true
  · rw [if_pos ⟨hv, by simp⟩, if_pos hv]; rfl
  · rw [if_neg (fun h => hv h.1), if_neg hv]; rfl

theorem aggregateMedia_nodup (cm : List (List MediaItem)) :
    ((aggregateMedia cm).1.map (fun m => m.url)).Nodup := by
  rw [aggregateMedia_eq]
  exact (seenFold_spec (fun m => m.url) validUrl cm.flatten [] []
    (by intro k; simp)).2.1 (by simp)

theorem aggregateMedia_seen (cm : List (List MediaItem)) (u : String) :
    u ∈ (aggregateMedia cm).2
      ↔ u ∈ (aggregateMedia cm).1.map (fun m => m.url) := by
  rw [aggregateMedia_eq]
  exact (seenFold_spec (fun m => m.url) validUrl cm.flatten [] []
    (by intro k; simp)).1 u

theorem ragQueryMedia_nodup (assocs : List MediaAssociation)
    (cm : List (List MediaItem)) (q : String) :
    ((ragQueryMedia assocs cm q).map (fun m => m.url)).Nodup := by
  unfold ragQueryMedia
  by_cases h : (aggregateMedia cm).1.isEmpty = true
  · simp only [h, if_true]
    rw [foldl_seenFold]
    have hpair : aggregateMedia cm
        = ((aggregateMedia cm).1, (aggregateMedia cm).2) := rfl
    rw [hpair]
    exact (seenFold_spec (fun m => m.url) validUrlLoose
      (((find_media_by_keywords assocs q 2).map
        (fun r => r.media_items)).flatten)
      (aggregateMedia cm).1 (aggregateMedia cm).2
      (aggregateMedia_seen cm)).2.1 (aggregateMedia_nodup cm)
  · simp only [h, Bool.false_eq_true, if_false]
    exact aggregateMedia_nodup cm

/-- C6, counterexample.  The claim says the flat aggregate contains
exactly one entry per distinct URL appearing in the enriched chunks' media.
The aggregate loop additionally requires `len(url.strip()) > 1`: a media
item with the one-character URL `"x"` appears in the chunk media, yet the
aggregate holds *zero* entries with that URL. -/
theorem c6_short_url_dropped :
    ((aggregateMedia [[⟨"image", "x", none, none, none, none⟩]]).1.filter
        (fun m => decide (m.url = "x"))).length = 0 ∧
    "x" ∈ ([[(⟨"image", "x", none, none, none, none⟩ : MediaItem)]].flatten.map
        (fun m => m.url)) := by
  exact ⟨rfl, by decide⟩

/-- C6, amended.  In the flat aggregate of `RAGEngine.query`: per URL
`u` *passing the validity guard* (`len(url.strip()) > 1`) the aggregate
contains exactly the first item with URL `u` across all chunks in order
(and nothing for URLs failing the guard); the keyword fallback
`find_media_by_keywords(question, top_k=2)` leaves the result untouched
whenever the aggregate is non-empty; and the returned media list — with or
without fallback — never holds two items with the same URL. -/
theorem c6_aggregate_dedup_amended :
    (∀ (cm : List (List MediaItem)) (u : String),
        (aggregateMedia cm).1.filter (fun m => decide (m.url = u))
          = if validUrl u
            then (cm.flatten.filter (fun m => decide (m.url = u))).take 1
            else []) ∧
    (∀ (assocs : List MediaAssociation) (cm : List (List MediaItem))
        (q : String),
        (aggregateMedia cm).1 ≠ [] →
          ragQueryMedia assocs cm q = (aggregateMedia cm).1) ∧
    (∀ (assocs : List MediaAssociation) (cm : List (List MediaItem))
        (q : String),
        (ragQueryMedia assocs cm q).Pairwise (fun a b => a.url ≠ b.url)) := by
  refine ⟨aggregateMedia_filter, ?_, ?_⟩
  · intro assocs cm q h
    unfold ragQueryMedia
    have hemp : (aggregateMedia cm).1.isEmpty = false := by
      cases hh : (aggregateMedia cm).1 with
      | nil => exact absurd hh h
      | cons a l => simp [hh]
    simp only [hemp, Bool.false_eq_true, if_false]
  · intro assocs cm q
    exact List.pairwise_map.mp (ragQueryMedia_nodup assocs cm q)

/-- C6, witness (for the hypothesis of the middle conjunct): a chunk
with one valid-URL item makes the aggregate non-empty, and the returned
media is exactly it. -/
theorem c6_aggregate_dedup_amended_witness :
    ragQueryMedia [] [[⟨"image", "url-a", none, none, none, none⟩]] "q"
      = [⟨"image", "url-a", none, none, none, none⟩] := by
  have h := c6_aggregate_dedup_amended.2.1 []
    [[⟨"image", "url-a", none, none, none, none⟩]] "q" (by decide)
  rw [h]; rfl

/-- C7, counterexample.  The claim says a chunk whose `(source, page)`
has no directly configured media contributes no media, even when a
keyword-based association would match the question.  In the code,
`find_media_for_source` falls back to `find_media_by_keywords(question,
top_k=3)` (restricted to associations with the same raw `document_name`)
exactly when the direct lookup is empty: here page 3 has no direct media
(the association is for page 2), yet the question `"foo"` matches the
association's keyword and its media is attached to the chunk. -/
theorem c7_keyword_backfill_exists :
    find_media_by_document
        [⟨"doc.pdf", some 2, none, ["foo"],
          [⟨"image", "u1", none, none, none, none⟩]⟩]
        "doc.pdf" (some 3) = [] ∧
    enrich_sources_with_media
        [⟨"doc.pdf", some 2, none, ["foo"],
          [⟨"image", "u1", none, none, none, none⟩]⟩]
        [⟨"doc.pdf", some 3, []⟩] (some "foo")
      = [⟨"doc.pdf", some 3,
          [⟨"image", "u1", none, none, none, none⟩]⟩] := by
  exact ⟨rfl, rfl⟩

/-- C7, amended.  Per-chunk enrichment attaches the
`find_media_by_document` media of the chunk's `(source, page)`,
deduplicated by `(type, url)`, whenever that direct lookup is non-empty or
no (non-empty) question is supplied — the question plays no role then.
But when the direct lookup is empty and the question is a non-empty
string, the chunk is instead given the media of
`find_media_by_keywords(question, top_k=3)` restricted to associations
whose stored `document_name` equals the chunk's source exactly (raw
comparison), deduplicated the same way; `enrich_sources_with_media` applies
this per record, writing the `media` key only when the result is
non-empty. -/
theorem c7_enrichment_characterization :
    (∀ (assocs : List MediaAssociation) (source : String) (page : Option Int),
        find_media_for_source assocs source page none
          = dedupByTypeUrl (find_media_by_document assocs source page)) ∧
    (∀ (assocs : List MediaAssociation) (source : String) (page : Option Int)
        (q : String),
        (find_media_by_document assocs source page ≠ [] ∨ q = "") →
          find_media_for_source assocs source page (some q)
            = dedupByTypeUrl (find_media_by_document assocs source page)) ∧
    (∀ (assocs : List MediaAssociation) (source : String) (page : Option Int)
        (q : String),
        q ≠ "" → find_media_by_document assocs source page = [] →
          find_media_for_source assocs source page (some q)
            = dedupByTypeUrl
                ((((find_media_by_keywords assocs q 3).filter
                  (fun r => decide (r.association.document_name = source))).map
                  (fun r => r.media_items)).flatten)) ∧
    (∀ (assocs : List MediaAssociation) (sources : List SourceRec)
        (q : Option String),
        enrich_sources_with_media assocs sources q
          = sources.map (fun s =>
              let items := find_media_for_source assocs s.source s.page q
              if items.isEmpty then s else { s with media := items })) := by
  refine ⟨fun assocs source page => rfl, ?_, ?_,
    fun assocs sources q => rfl⟩
  · intro assocs source page q h
    unfold find_media_for_source
    have hcond : (decide (q ≠ "")
        && (find_media_by_document assocs source page).isEmpty) = false := by
      rcases h with h | h
      · cases hm : find_media_by_document assocs source page with
        | nil => exact absurd hm h
        | cons a l => simp [hm]
      · subst h; simp
    simp only [hcond, Bool.false_eq_true, if_false]
  · intro assocs source page q hq hm
    unfold find_media_for_source
    simp [hq, hm]

/-- C7, witness: the keyword-backfill branch at the counterexample's
input, and the direct branch for a pageless association. -/
theorem c7_enrichment_characterization_witness :
    find_media_for_source
        [⟨"doc.pdf", some 2, none, ["foo"],
          [⟨"image", "u1", none, none, none, none⟩]⟩]
        "doc.pdf" (some 3) (some "foo")
      = [⟨"image", "u1", none, none, none, none⟩] ∧
    find_media_for_source
        [⟨"doc.pdf", none, none, [],
          [⟨"image", "u2", none, none, none, none⟩]⟩]
        "doc.pdf" (some 3) (some "bar")
      = [⟨"image", "u2", none, none, none, none⟩] := by
  constructor
  · have h := c7_enrichment_characterization.2.2.1
      [⟨"doc.pdf", some 2, none, ["foo"],
        [⟨"image", "u1", none, none, none, none⟩]⟩]
      "doc.pdf" (some 3) "foo" (by decide) (by rfl)
    rw [h]; rfl
  · have h := c7_enrichment_characterization.2.1
      [⟨"doc.pdf", none, none, [],
        [⟨"image", "u2", none, none, none, none⟩]⟩]
      "doc.pdf" (some 3) "bar" (Or.inl (by decide))
    rw [h]; rfl

/-- C9, counterexample.  The claim says every answer's flat media list
— including chat queries — has no two items with the same URL.
`chat_query` concatenates the enriched records' media without any dedup:
two chunks of the same document, both enriched with the same association's
item, yield the URL twice. -/
theorem c9_chat_media_duplicate_urls :
    (chatQueryMedia (enrich_sources_with_media
        [⟨"d.pdf", none, none, [],
          [⟨"image", "uu1", none, none, none, none⟩]⟩]
        [⟨"d.pdf", none, []⟩, ⟨"d.pdf", none, []⟩] (some "q"))).map
      (fun m => m.url) = ["uu1", "uu1"] ∧
    ¬ ((chatQueryMedia (enrich_sources_with_media
        [⟨"d.pdf", none, none, [],
          [⟨"image", "uu1", none, none, none, none⟩]⟩]
        [⟨"d.pdf", none, []⟩, ⟨"d.pdf", none, []⟩] (some "q"))).map
      (fun m => m.url)).Nodup := by
  exact ⟨rfl, by decide⟩

/-- C9, amended.  The media list of `RAGEngine.query` is URL-deduped:
its URLs are pairwise distinct for every input.  `RAGEngine.chat_query`,
however, returns the plain concatenation of the per-record media lists,
with no dedup, so chat answers can repeat a URL. -/
theorem c9_media_dedup_amended :
    (∀ (assocs : List MediaAssociation) (cm : List (List MediaItem))
        (q : String),
        ((ragQueryMedia assocs cm q).map (fun m => m.url)).Nodup) ∧
    (∀ sources : List SourceRec,
        chatQueryMedia sources
          = (sources.map (fun s => s.media)).flatten) := by
  refine ⟨ragQueryMedia_nodup, ?_⟩
  intro sources
  have h : ∀ acc : List MediaItem,
      sources.foldl (fun acc s => acc ++ s.media) acc
        = acc ++ (sources.map (fun s => s.media)).flatten := by
    induction sources with
    | nil => intro acc; simp
    | cons s ss ih => intro acc; simp [List.foldl_cons, ih]
  simpa [chatQueryMedia] using h []

/-- C10, counterexample.  The claim says a failing load leaves zero
loaded associations.  When the JSON document itself parses but its second
association entry is malformed, the loop has already appended the first
association before the exception is caught: loading fails, yet the index
holds one association. -/
theorem c10_partial_load_keeps_prefix :
    loadFails (LoadInput.entries
        [Except.ok ⟨"a.pdf", none, none, [], []⟩,
         Except.error "unexpected field"]) = true ∧
    loadAssociations (LoadInput.entries
        [Except.ok ⟨"a.pdf", none, none, [], []⟩,
         Except.error "unexpected field"])
      = [⟨"a.pdf", none, none, [], []⟩] := by
  constructor <;> rfl

/-- C10, amended.  A load failure is caught (the loader is a total
function — no exception leaves construction) and the index then holds
exactly the associations parsed *before* the first failing entry: zero when
the file is missing or its JSON is malformed at the top level, and the
already-parsed prefix when a later association entry is malformed. -/
theorem c10_load_failure_caught :
    (loadAssociations LoadInput.missing = []) ∧
    (∀ e : String, loadAssociations (LoadInput.badJson e) = []) ∧
    (∀ es : List (Except String MediaAssociation),
        loadAssociations (LoadInput.entries es)
          = (es.takeWhile (fun x => match x with
              | Except.ok _ => true
              | Except.error _ => false)).filterMap Except.toOption) := by
  refine ⟨rfl, fun e => rfl, ?_⟩
  intro es
  induction es with
  | nil => rfl
  | cons e rest ih =>
      cases e with
      | ok a =>
          simp [loadAssociations, takeOkPrefix, List.takeWhile_cons,
            Except.toOption] at *
          exact ih
      | error msg => rfl

end ProjectChromadb
